import Mathlib

/-!
Verification of the DataViz core against its specification.

This file shallowly embeds the conversation store (`src/session_manager.py`),
the intent classifier and code extraction (`src/brain.py`), the profile
builder (`src/dataloader.py`), the sandbox executor (`src/executor.py`) and
the orchestrator endpoint (`main.py`).  SQLite tables are modelled as lists
of rows; `CURRENT_TIMESTAMP` is modelled as a `Nat` count of seconds passed
explicitly to each write, with sequential writes occurring at strictly
increasing times (SQL `ORDER BY timestamp` leaves the order of equal
timestamps unspecified, so distinct times are assumed throughout).
-/

/-- `MAX_MESSAGES` from session_manager.py: maximum messages kept per key. -/
def MAX_MESSAGES : Nat := 10

/-- `SESSION_EXPIRY_HOURS` (24) converted to seconds, the unit of our clock. -/
def SESSION_EXPIRY_SECONDS : Nat := 24 * 3600

/-- A row of the `sessions` table. `user_profile` keeps the raw JSON blob. -/
structure SessionRow where
  session_id : String
  user_profile : String
  created_at : Nat
  last_active : Nat
deriving Repr, DecidableEq

/-- A row of the `conversations` table.  `rowid` models the AUTOINCREMENT
primary key `id`; `timestamp` models the `TIMESTAMP` column in seconds. -/
structure ConvRow where
  rowid : Nat
  session_id : String
  file_id : String
  role : String
  message : String
  timestamp : Nat
deriving Repr, DecidableEq

/-- The SQLite database held in `chart_visualizer.db`: the two tables plus
the next AUTOINCREMENT id for `conversations`. -/
structure DBState where
  sessions : List SessionRow
  conversations : List ConvRow
  nextRowId : Nat
deriving Repr, DecidableEq

/-- The `WHERE session_id = ? AND file_id = ?` filter. -/
def matchesKey (sid fid : String) (c : ConvRow) : Bool :=
  c.session_id == sid && c.file_id == fid

/-- All conversation rows of one (session, file) key, in table order. -/
def keyRows (s : DBState) (sid fid : String) : List ConvRow :=
  s.conversations.filter (matchesKey sid fid)

/-- The comparison behind `ORDER BY timestamp DESC`. -/
def tsGE (a b : ConvRow) : Prop := b.timestamp ≤ a.timestamp

instance : DecidableRel tsGE :=
  fun a b => inferInstanceAs (Decidable (b.timestamp ≤ a.timestamp))

/-- `SELECT ... ORDER BY timestamp DESC` on a row list. -/
def sortByTimeDesc (l : List ConvRow) : List ConvRow :=
  List.insertionSort tsGE l

/-- `get_conversation_history`: latest `limit` rows of the key, read in
timestamp-descending order and then reversed to chronological order. -/
def get_conversation_history (s : DBState) (sid fid : String) (limit : Nat) :
    List ConvRow :=
  ((sortByTimeDesc (keyRows s sid fid)).take limit).reverse

/-- `cleanup_old_messages`: DELETE the key rows beyond the `MAX_MESSAGES`
most recent ones (`ORDER BY timestamp DESC LIMIT -1 OFFSET MAX_MESSAGES`),
identified by their primary key `id`. -/
def cleanup_old_messages (s : DBState) (sid fid : String) : DBState :=
  let victims := ((sortByTimeDesc (keyRows s sid fid)).drop MAX_MESSAGES).map
    (fun c => c.rowid)
  { s with conversations :=
      s.conversations.filter (fun c => !(victims.contains c.rowid)) }

/-- `update_session_activity`: SET last_active = CURRENT_TIMESTAMP for the
session. -/
def update_session_activity (s : DBState) (sid : String) (now : Nat) : DBState :=
  { s with sessions := s.sessions.map (fun r =>
      if r.session_id == sid then { r with last_active := now } else r) }

/-- `add_message`: INSERT the turn, refresh `last_active`, then trim the
key's log. -/
def add_message (s : DBState) (now : Nat) (sid fid role msg : String) : DBState :=
  let s1 : DBState :=
    { s with
      conversations := s.conversations ++ [⟨s.nextRowId, sid, fid, role, msg, now⟩],
      nextRowId := s.nextRowId + 1 }
  let s2 := update_session_activity s1 sid now
  cleanup_old_messages s2 sid fid

/-- `get_message_count`: COUNT(*) of the key's rows. -/
def get_message_count (s : DBState) (sid fid : String) : Nat :=
  (keyRows s sid fid).length

/-- `clear_conversation`: DELETE all rows of the key. -/
def clear_conversation (s : DBState) (sid fid : String) : DBState :=
  { s with conversations := s.conversations.filter (fun c => !(matchesKey sid fid c)) }

/-- `create_session`: INSERT a fresh session row; the generated UUID is
taken as a parameter. -/
def create_session (s : DBState) (new_sid profile : String) (now : Nat) : DBState :=
  { s with sessions := s.sessions ++ [⟨new_sid, profile, now, now⟩] }

/-- The dictionary returned by `get_session`. -/
structure SessionInfo where
  session_id : String
  user_profile : String
  created_at : Nat
  last_active : Nat
deriving Repr, DecidableEq

/-- `get_session`: fetch the first row with the given id; return None when
missing or when `now - last_active` strictly exceeds 24 hours (lazy expiry
at read time). -/
def get_session (s : DBState) (sid : String) (now : Nat) : Option SessionInfo :=
  match s.sessions.find? (fun r => r.session_id == sid) with
  | none => none
  | some r =>
    if (now : Int) - (r.last_active : Int) > (SESSION_EXPIRY_SECONDS : Int) then
      none
    else
      some ⟨sid, r.user_profile, r.created_at, r.last_active⟩

/-- `get_session` as a state transformer: the function only executes a
SELECT, so the database component is returned unchanged. -/
def get_session_op (s : DBState) (sid : String) (now : Nat) :
    Option SessionInfo × DBState :=
  (get_session s sid now, s)

/-- Rowids strictly increase along the table. -/
def rowidLT (a b : ConvRow) : Prop := a.rowid < b.rowid

/-- Timestamps strictly increase along the table. -/
def timeLT (a b : ConvRow) : Prop := a.timestamp < b.timestamp

instance : DecidableRel rowidLT :=
  fun a b => inferInstanceAs (Decidable (a.rowid < b.rowid))

instance : DecidableRel timeLT :=
  fun a b => inferInstanceAs (Decidable (a.timestamp < b.timestamp))

/-- Well-formedness of the conversations table: rowids strictly increasing
and below the AUTOINCREMENT counter, timestamps strictly increasing. -/
def WF (s : DBState) : Prop :=
  s.conversations.Pairwise rowidLT ∧
  (∀ c ∈ s.conversations, c.rowid < s.nextRowId) ∧
  s.conversations.Pairwise timeLT

instance (s : DBState) : Decidable (WF s) := by
  unfold WF; infer_instance

/-- Keep only the last `n` elements of a list (the store's trim). -/
def trimLast (n : Nat) (l : List α) : List α := l.drop (l.length - n)

/-- Inserting a row strictly older than every element of a list places it at
the end under the timestamp-descending order. -/
theorem orderedInsert_tsGE_of_forall_lt (a : ConvRow) (l : List ConvRow)
    (h : ∀ b ∈ l, a.timestamp < b.timestamp) :
    List.orderedInsert tsGE a l = l ++ [a] := by
  induction l with
  | nil => rfl
  | cons x xs ih =>
    have hx : ¬ tsGE a x := by
      have := h x (List.mem_cons_self x xs)
      simp only [tsGE]
      omega
    simp only [List.orderedInsert, if_neg hx, List.cons_append]
    rw [ih (fun b hb => h b (List.mem_cons_of_mem x hb))]

/-- Sorting a chronologically ascending row list by timestamp descending
reverses it. -/
theorem sortByTimeDesc_of_pairwise (l : List ConvRow) (h : l.Pairwise timeLT) :
    sortByTimeDesc l = l.reverse := by
  induction l with
  | nil => rfl
  | cons x xs ih =>
    have hx : ∀ b ∈ xs, x.timestamp < b.timestamp :=
      fun b hb => (List.pairwise_cons.mp h).1 b hb
    show List.orderedInsert tsGE x (List.insertionSort tsGE xs) = (x :: xs).reverse
    rw [show List.insertionSort tsGE xs = sortByTimeDesc xs from rfl,
      ih (List.pairwise_cons.mp h).2,
      orderedInsert_tsGE_of_forall_lt x xs.reverse
        (fun b hb => hx b (List.mem_reverse.mp hb)),
      List.reverse_cons]

/-- In a table with strictly increasing rowids, the rowid determines the row. -/
theorem rowid_injective {l : List ConvRow} (h : l.Pairwise rowidLT) :
    ∀ a ∈ l, ∀ b ∈ l, a.rowid = b.rowid → a = b := by
  induction l with
  | nil => intro a ha; exact absurd ha (List.not_mem_nil a)
  | cons x xs ih =>
    intro a ha b hb heq
    have hhead := (List.pairwise_cons.mp h).1
    have htail := (List.pairwise_cons.mp h).2
    rcases List.mem_cons.mp ha with rfl | ha₀
    · rcases List.mem_cons.mp hb with rfl | hb₀
      · rfl
      · have := hhead b hb₀
        simp only [rowidLT] at this
        omega
    · rcases List.mem_cons.mp hb with rfl | hb₀
      · have := hhead a ha₀
        simp only [rowidLT] at this
        omega
      · exact ih htail a ha₀ b hb₀ heq

/-- Dropping from a reversed list is reversing a take. -/
theorem reverse_drop_eq_reverse_take (l : List α) (n : Nat) :
    l.reverse.drop n = (l.take (l.length - n)).reverse := by
  rcases Nat.le_total n l.length with h | h
  · rw [List.reverse_take]
    congr 1
    omega
  · rw [List.drop_eq_nil_of_le (by simpa using h),
      List.take_eq_nil_iff.mpr (Or.inl (by omega))]
    rfl

/-- The row that `add_message` inserts. -/
def newConvRow (s : DBState) (now : Nat) (sid fid role msg : String) : ConvRow :=
  ⟨s.nextRowId, sid, fid, role, msg, now⟩

/-- A filter that rejects exactly the first `n` positions keeps exactly the
remainder. -/
theorem filter_split_drop (l : List α) (p : α → Bool) (n : Nat)
    (h1 : ∀ a ∈ l.take n, p a = false) (h2 : ∀ a ∈ l.drop n, p a = true) :
    l.filter p = l.drop n := by
  conv_lhs => rw [← List.take_append_drop n l]
  rw [List.filter_append, List.filter_eq_nil_iff.mpr (by intro a ha; simp [h1 a ha]),
    List.filter_eq_self.mpr h2, List.nil_append]

/-- Membership view of the rowid list used by the DELETE. -/
theorem contains_rowid_iff (l : List ConvRow) (n : Nat) :
    ((l.map (fun c => c.rowid)).contains n = true) ↔ ∃ a ∈ l, a.rowid = n := by
  simp

/-- The trim step keeps exactly the `MAX_MESSAGES` newest rows of the key:
on a well-ordered table it deletes precisely the oldest surplus rows, and it
only ever deletes rows. -/
theorem cleanup_keyRows (s : DBState) (sid fid : String)
    (hr : s.conversations.Pairwise rowidLT)
    (ht : s.conversations.Pairwise timeLT) :
    keyRows (cleanup_old_messages s sid fid) sid fid
      = trimLast MAX_MESSAGES (keyRows s sid fid) ∧
    (cleanup_old_messages s sid fid).conversations.Sublist s.conversations := by
  have hKr : (keyRows s sid fid).Pairwise rowidLT := hr.filter _
  have hKt : (keyRows s sid fid).Pairwise timeLT := ht.filter _
  have hV : (sortByTimeDesc (keyRows s sid fid)).drop MAX_MESSAGES
      = ((keyRows s sid fid).take ((keyRows s sid fid).length - MAX_MESSAGES)).reverse := by
    rw [sortByTimeDesc_of_pairwise _ hKt, reverse_drop_eq_reverse_take]
  have hAB : (keyRows s sid fid).take ((keyRows s sid fid).length - MAX_MESSAGES)
      ++ (keyRows s sid fid).drop ((keyRows s sid fid).length - MAX_MESSAGES)
      = keyRows s sid fid := List.take_append_drop _ _
  have hcross : ∀ a ∈ (keyRows s sid fid).take ((keyRows s sid fid).length - MAX_MESSAGES),
      ∀ b ∈ (keyRows s sid fid).drop ((keyRows s sid fid).length - MAX_MESSAGES),
      a.rowid < b.rowid := by
    have h2 := hKr
    rw [← hAB] at h2
    exact fun a ha b hb => (List.pairwise_append.mp h2).2.2 a ha b hb
  have hmemA : ∀ c ∈ (keyRows s sid fid).take ((keyRows s sid fid).length - MAX_MESSAGES),
      (((sortByTimeDesc (keyRows s sid fid)).drop MAX_MESSAGES).map
        (fun c => c.rowid)).contains c.rowid = true := by
    intro c hc
    rw [hV]
    exact (contains_rowid_iff _ _).mpr ⟨c, List.mem_reverse.mpr hc, rfl⟩
  have hmemB : ∀ c ∈ (keyRows s sid fid).drop ((keyRows s sid fid).length - MAX_MESSAGES),
      (((sortByTimeDesc (keyRows s sid fid)).drop MAX_MESSAGES).map
        (fun c => c.rowid)).contains c.rowid = false := by
    intro c hc
    rw [hV, ← Bool.not_eq_true]
    intro hcon
    obtain ⟨a, ha, heq⟩ := (contains_rowid_iff _ _).mp hcon
    have := hcross a (List.mem_reverse.mp ha) c hc
    omega
  have hmemNK : ∀ c ∈ s.conversations, matchesKey sid fid c = false →
      (((sortByTimeDesc (keyRows s sid fid)).drop MAX_MESSAGES).map
        (fun c => c.rowid)).contains c.rowid = false := by
    intro c hc hnk
    rw [hV, ← Bool.not_eq_true]
    intro hcon
    obtain ⟨a, ha, heq⟩ := (contains_rowid_iff _ _).mp hcon
    have haK : a ∈ keyRows s sid fid := List.mem_of_mem_take (List.mem_reverse.mp ha)
    have haC : a ∈ s.conversations := (List.filter_sublist _).subset haK
    have haM : matchesKey sid fid a = true := List.of_mem_filter haK
    have hac : a = c := rowid_injective hr a haC c hc heq
    rw [hac, hnk] at haM
    exact absurd haM (by simp)
  constructor
  · show ((s.conversations.filter (fun c =>
        !((((sortByTimeDesc (keyRows s sid fid)).drop MAX_MESSAGES).map
          (fun c => c.rowid)).contains c.rowid))).filter (matchesKey sid fid)) = _
    rw [List.filter_filter]
    have hsplit : s.conversations.filter (fun c => matchesKey sid fid c &&
        !((((sortByTimeDesc (keyRows s sid fid)).drop MAX_MESSAGES).map
          (fun c => c.rowid)).contains c.rowid))
        = (keyRows s sid fid).filter (fun c =>
          !((((sortByTimeDesc (keyRows s sid fid)).drop MAX_MESSAGES).map
            (fun c => c.rowid)).contains c.rowid)) := by
      rw [show keyRows s sid fid = s.conversations.filter (matchesKey sid fid) from rfl,
        List.filter_filter]
      exact List.filter_congr (fun x hx => Bool.and_comm _ _)
    rw [hsplit]
    exact filter_split_drop _ _ _
      (fun a ha => by simp only [hmemA a ha, Bool.not_true])
      (fun a ha => by simp only [hmemB a ha, Bool.not_false])
  · exact List.filter_sublist _

/-- Effect of one `add_message` on a well-formed table: the key's log gains
the new row and is trimmed to its `MAX_MESSAGES` newest rows (a suffix, so
the dropped rows are the oldest); well-formedness is preserved, the
AUTOINCREMENT advances by one, and no other row is invented. -/
theorem add_message_spec (s : DBState) (now : Nat) (sid fid role msg : String)
    (hWF : WF s) (hfresh : ∀ c ∈ s.conversations, c.timestamp < now) :
    keyRows (add_message s now sid fid role msg) sid fid
      = trimLast MAX_MESSAGES (keyRows s sid fid ++ [newConvRow s now sid fid role msg]) ∧
    WF (add_message s now sid fid role msg) ∧
    (add_message s now sid fid role msg).nextRowId = s.nextRowId + 1 ∧
    (add_message s now sid fid role msg).conversations.Sublist
      (s.conversations ++ [newConvRow s now sid fid role msg]) := by
  obtain ⟨hrow, hbound, htime⟩ := hWF
  have hr2 : (s.conversations ++ [newConvRow s now sid fid role msg]).Pairwise rowidLT := by
    rw [List.pairwise_append]
    refine ⟨hrow, List.pairwise_singleton _ _, ?_⟩
    intro a ha b hb
    rw [List.mem_singleton] at hb
    subst hb
    exact hbound a ha
  have ht2 : (s.conversations ++ [newConvRow s now sid fid role msg]).Pairwise timeLT := by
    rw [List.pairwise_append]
    refine ⟨htime, List.pairwise_singleton _ _, ?_⟩
    intro a ha b hb
    rw [List.mem_singleton] at hb
    subst hb
    exact hfresh a ha
  have hc := cleanup_keyRows
    (update_session_activity
      { s with
        conversations := s.conversations ++ [newConvRow s now sid fid role msg],
        nextRowId := s.nextRowId + 1 } sid now) sid fid hr2 ht2
  have hkey2 : keyRows (update_session_activity
      { s with
        conversations := s.conversations ++ [newConvRow s now sid fid role msg],
        nextRowId := s.nextRowId + 1 } sid now) sid fid
      = keyRows s sid fid ++ [newConvRow s now sid fid role msg] := by
    show (s.conversations ++ [newConvRow s now sid fid role msg]).filter
      (matchesKey sid fid) = _
    rw [List.filter_append]
    congr 1
    simp [matchesKey, newConvRow]
  refine ⟨?_, ⟨?_, ?_, ?_⟩, rfl, ?_⟩
  · show keyRows (cleanup_old_messages (update_session_activity
      { s with
        conversations := s.conversations ++ [newConvRow s now sid fid role msg],
        nextRowId := s.nextRowId + 1 } sid now) sid fid) sid fid = _
    rw [hc.1, hkey2]
  · exact List.Pairwise.sublist hc.2 hr2
  · intro c hcmem
    show c.rowid < s.nextRowId + 1
    have hmem2 := hc.2.subset hcmem
    rcases List.mem_append.mp hmem2 with hmo | hms
    · have := hbound c hmo
      omega
    · rw [List.mem_singleton] at hms
      subst hms
      exact Nat.lt_succ_self _
  · exact List.Pairwise.sublist hc.2 ht2
  · exact hc.2

/-- A sequence of `add_message` calls on one key; each entry is
(time, role, content). -/
def runAppends (s : DBState) (sid fid : String) :
    List (Nat × String × String) → DBState
  | [] => s
  | m :: rest => runAppends (add_message s m.1 sid fid m.2.1 m.2.2) sid fid rest

/-- Each append in the sequence happens strictly later than every row
already stored (sequential calls at distinct clock readings). -/
def freshRun (s : DBState) (sid fid : String) :
    List (Nat × String × String) → Bool
  | [] => true
  | m :: rest =>
    s.conversations.all (fun c => decide (c.timestamp < m.1)) &&
    freshRun (add_message s m.1 sid fid m.2.1 m.2.2) sid fid rest

/-- The rows such a sequence inserts, given the first AUTOINCREMENT id. -/
def rowsFrom (sid fid : String) (nid : Nat) :
    List (Nat × String × String) → List ConvRow
  | [] => []
  | m :: rest => ⟨nid, sid, fid, m.2.1, m.2.2, m.1⟩ :: rowsFrom sid fid (nid + 1) rest

theorem trimLast_length (n : Nat) (l : List α) :
    (trimLast n l).length = min l.length n := by
  simp only [trimLast, List.length_drop]
  omega

theorem trimLast_append_trimLast (n : Nat) (a m : List α) :
    trimLast n (trimLast n a ++ m) = trimLast n (a ++ m) := by
  unfold trimLast
  rw [List.drop_append_eq_append_drop, List.drop_append_eq_append_drop, List.drop_drop]
  congr 1
  · congr 1
    simp only [List.length_append, List.length_drop]
    omega
  · congr 1
    simp only [List.length_append, List.length_drop]
    omega

theorem getLast?_drop_of_lt (l : List α) (n : Nat) (h : n < l.length) :
    (l.drop n).getLast? = l.getLast? := by
  have hd : l.drop n ≠ [] := by
    intro hnil
    have := List.length_drop n l
    rw [hnil] at this
    simp at this
    omega
  obtain ⟨x, hx⟩ := Option.isSome_iff_exists.mp (List.getLast?_isSome.mpr hd)
  have hr : l.getLast? = some x := by
    conv_lhs => rw [← List.take_append_drop n l]
    rw [List.getLast?_append, hx]
    rfl
  rw [hx, hr]

theorem rowsFrom_length (sid fid : String) (msgs : List (Nat × String × String)) :
    ∀ nid, (rowsFrom sid fid nid msgs).length = msgs.length := by
  induction msgs with
  | nil => intro nid; rfl
  | cons m rest ih => intro nid; simp [rowsFrom, ih]

theorem rowsFrom_map_proj (sid fid : String) (msgs : List (Nat × String × String)) :
    ∀ nid, (rowsFrom sid fid nid msgs).map (fun c => (c.role, c.message))
      = msgs.map (fun m => (m.2.1, m.2.2)) := by
  induction msgs with
  | nil => intro nid; rfl
  | cons m rest ih => intro nid; simp [rowsFrom, ih]

theorem rowsFrom_drop (sid fid : String) (j : Nat) :
    ∀ (msgs : List (Nat × String × String)) (nid : Nat),
      (rowsFrom sid fid nid msgs).drop j = rowsFrom sid fid (nid + j) (msgs.drop j) := by
  induction j with
  | zero => intro msgs nid; simp
  | succ k ih =>
    intro msgs nid
    cases msgs with
    | nil => rfl
    | cons m rest =>
      show (rowsFrom sid fid (nid + 1) rest).drop k = _
      rw [ih rest (nid + 1)]
      congr 1
      omega

/-- Running a fresh sequence of appends preserves well-formedness, and (for
a nonempty sequence) leaves the key's log equal to the newest
`MAX_MESSAGES` entries of (old log ++ inserted rows). -/
theorem runAppends_spec (sid fid : String) (msgs : List (Nat × String × String)) :
    ∀ s : DBState, WF s → freshRun s sid fid msgs = true →
      WF (runAppends s sid fid msgs) ∧
      (msgs ≠ [] → keyRows (runAppends s sid fid msgs) sid fid
        = trimLast MAX_MESSAGES
            (keyRows s sid fid ++ rowsFrom sid fid s.nextRowId msgs)) := by
  induction msgs with
  | nil => intro s hWF _; exact ⟨hWF, fun h => absurd rfl h⟩
  | cons m rest ih =>
    intro s hWF hfresh
    rw [show freshRun s sid fid (m :: rest)
      = (s.conversations.all (fun c => decide (c.timestamp < m.1)) &&
        freshRun (add_message s m.1 sid fid m.2.1 m.2.2) sid fid rest) from rfl,
      Bool.and_eq_true] at hfresh
    have hfr : ∀ c ∈ s.conversations, c.timestamp < m.1 := by
      have := hfresh.1
      rw [List.all_eq_true] at this
      intro c hc
      simpa using this c hc
    obtain ⟨hk1, hWF1, hnid1, _⟩ := add_message_spec s m.1 sid fid m.2.1 m.2.2 hWF hfr
    have hrec := ih (add_message s m.1 sid fid m.2.1 m.2.2) hWF1 hfresh.2
    refine ⟨hrec.1, fun _ => ?_⟩
    by_cases hrest : rest = []
    · subst hrest
      show keyRows (add_message s m.1 sid fid m.2.1 m.2.2) sid fid = _
      rw [hk1]
      rfl
    · show keyRows (runAppends (add_message s m.1 sid fid m.2.1 m.2.2) sid fid rest)
        sid fid = _
      rw [hrec.2 hrest, hk1, hnid1, trimLast_append_trimLast, List.append_assoc]
      rfl

/-- C1: for every (session, dataset) key and every sequence of N ≥ 11
sequential `add_message` calls on that key (at strictly increasing times,
from a well-formed store), `get_conversation_history` afterwards returns
exactly 10 turns, in strictly increasing timestamp order (oldest first),
whose (role, content) projection is exactly the last 10 appended entries —
so the last returned turn is the most recently appended content; moreover
after every single append the key's log has at most `MAX_MESSAGES` = 10
rows and equals the newest-10 suffix of (previous log ++ new row), i.e.
the dropped turns are always the oldest (FIFO trim). -/
theorem C1_history_bound (s : DBState) (sid fid : String)
    (msgs : List (Nat × String × String))
    (hWF : WF s) (hfresh : freshRun s sid fid msgs = true)
    (hN : 11 ≤ msgs.length) :
    (get_conversation_history (runAppends s sid fid msgs) sid fid MAX_MESSAGES).length
      = 10 ∧
    (get_conversation_history (runAppends s sid fid msgs) sid fid
      MAX_MESSAGES).Pairwise timeLT ∧
    (get_conversation_history (runAppends s sid fid msgs) sid fid MAX_MESSAGES).map
        (fun c => (c.role, c.message))
      = (msgs.drop (msgs.length - MAX_MESSAGES)).map (fun m => (m.2.1, m.2.2)) ∧
    ((get_conversation_history (runAppends s sid fid msgs) sid fid
        MAX_MESSAGES).getLast?).map (fun c => c.message)
      = (msgs.getLast?).map (fun m => m.2.2) ∧
    (∀ (s₀ : DBState) (now : Nat) (role msg : String), WF s₀ →
      (∀ c ∈ s₀.conversations, c.timestamp < now) →
      (keyRows (add_message s₀ now sid fid role msg) sid fid).length ≤ MAX_MESSAGES ∧
      keyRows (add_message s₀ now sid fid role msg) sid fid
        = trimLast MAX_MESSAGES
            (keyRows s₀ sid fid ++ [newConvRow s₀ now sid fid role msg])) := by
  have hM : MAX_MESSAGES = 10 := rfl
  have hmsgs : msgs ≠ [] := by
    intro h
    rw [h] at hN
    simp at hN
  obtain ⟨hWF', hkey⟩ := runAppends_spec sid fid msgs s hWF hfresh
  have hkeq := hkey hmsgs
  have hlenK : (keyRows (runAppends s sid fid msgs) sid fid).length = 10 := by
    rw [hkeq, trimLast_length, List.length_append, rowsFrom_length, hM]
    omega
  have hKt : (keyRows (runAppends s sid fid msgs) sid fid).Pairwise timeLT :=
    hWF'.2.2.filter _
  have hgh : get_conversation_history (runAppends s sid fid msgs) sid fid MAX_MESSAGES
      = keyRows (runAppends s sid fid msgs) sid fid := by
    show ((sortByTimeDesc (keyRows (runAppends s sid fid msgs) sid fid)).take
      MAX_MESSAGES).reverse = _
    rw [sortByTimeDesc_of_pairwise _ hKt,
      List.take_of_length_le (by rw [List.length_reverse, hlenK, hM]),
      List.reverse_reverse]
  have hproj : (get_conversation_history (runAppends s sid fid msgs) sid fid
        MAX_MESSAGES).map (fun c => (c.role, c.message))
      = (msgs.drop (msgs.length - MAX_MESSAGES)).map (fun m => (m.2.1, m.2.2)) := by
    rw [hgh, hkeq]
    show (List.drop _ _).map _ = _
    rw [List.drop_append_eq_append_drop,
      List.drop_eq_nil_of_le (by rw [List.length_append, rowsFrom_length]; omega),
      List.nil_append,
      show (keyRows s sid fid ++ rowsFrom sid fid s.nextRowId msgs).length
          - MAX_MESSAGES - (keyRows s sid fid).length
        = msgs.length - MAX_MESSAGES from by
          rw [List.length_append, rowsFrom_length, hM]; omega,
      rowsFrom_drop, rowsFrom_map_proj]
  refine ⟨by rw [hgh]; exact hlenK, by rw [hgh]; exact hKt, hproj, ?_, ?_⟩
  · have e1 := congrArg List.getLast? hproj
    rw [List.getLast?_map, List.getLast?_map,
      getLast?_drop_of_lt msgs (msgs.length - MAX_MESSAGES) (by rw [hM]; omega)] at e1
    cases o1 : (get_conversation_history (runAppends s sid fid msgs) sid fid
        MAX_MESSAGES).getLast? with
    | none =>
      cases o2 : msgs.getLast? with
      | none => rfl
      | some m => rw [o1, o2] at e1; simp at e1
    | some c =>
      cases o2 : msgs.getLast? with
      | none => rw [o1, o2] at e1; simp at e1
      | some m =>
        rw [o1, o2] at e1
        simp only [Option.map_some'] at e1
        exact congrArg some (congrArg Prod.snd (Option.some.inj e1))
  · intro s₀ now role msg hWF0 hfr0
    obtain ⟨hk, _, _, _⟩ := add_message_spec s₀ now sid fid role msg hWF0 hfr0
    exact ⟨by rw [hk, trimLast_length]; exact Nat.min_le_right _ _, hk⟩

/-- Concrete run of 11 appends used to witness C1. -/
def c1msgs : List (Nat × String × String) :=
  [(1, "user", "m1"), (2, "assistant", "m2"), (3, "user", "m3"),
   (4, "assistant", "m4"), (5, "user", "m5"), (6, "assistant", "m6"),
   (7, "user", "m7"), (8, "assistant", "m8"), (9, "user", "m9"),
   (10, "assistant", "m10"), (11, "user", "m11")]

/-- C1 witness: the hypotheses of `C1_history_bound` hold at a concrete
store and run, and its conclusion evaluates there. -/
theorem C1_history_bound_witness :
    WF ⟨[], [], 0⟩ ∧ freshRun ⟨[], [], 0⟩ "s" "f" c1msgs = true ∧
    11 ≤ c1msgs.length ∧
    (get_conversation_history (runAppends ⟨[], [], 0⟩ "s" "f" c1msgs) "s" "f"
      MAX_MESSAGES).length = 10 :=
  ⟨by decide, by decide, by decide,
    (C1_history_bound ⟨[], [], 0⟩ "s" "f" c1msgs (by decide) (by decide)
      (by decide)).1⟩

/-- C8: `get_session` returns None exactly when the session row is missing
or `now - last_active` strictly exceeds 24 hours (lazy expiry evaluated at
read time); a session inside the window is returned with its stored
fields. -/
theorem C8_get_session_expiry (s : DBState) (sid : String) (now : Nat) :
    (get_session s sid now = none ↔
      s.sessions.find? (fun r => r.session_id == sid) = none ∨
      ∃ r, s.sessions.find? (fun r => r.session_id == sid) = some r ∧
        (now : Int) - (r.last_active : Int) > (SESSION_EXPIRY_SECONDS : Int)) ∧
    (∀ r, s.sessions.find? (fun r => r.session_id == sid) = some r →
      (now : Int) - (r.last_active : Int) ≤ (SESSION_EXPIRY_SECONDS : Int) →
      get_session s sid now
        = some ⟨sid, r.user_profile, r.created_at, r.last_active⟩) := by
  constructor
  · cases h : s.sessions.find? (fun r => r.session_id == sid) with
    | none => simp [get_session, h]
    | some r =>
      by_cases hexp : (now : Int) - (r.last_active : Int)
          > (SESSION_EXPIRY_SECONDS : Int)
      · simp only [get_session, h, if_pos hexp]
        exact ⟨fun _ => Or.inr ⟨r, rfl, hexp⟩, fun _ => trivial⟩
      · simp only [get_session, h, if_neg hexp]
        constructor
        · intro hc
          exact absurd hc (by simp)
        · intro hc
          rcases hc with hc | ⟨r2, hr2, hexp2⟩
          · exact absurd hc (by simp)
          · rw [Option.some.inj hr2] at hexp
            exact absurd hexp2 hexp
  · intro r h hle
    simp only [get_session, h, if_neg (not_lt.mpr hle)]

/-- C8 witness: a session last active 25 hours ago (90000 s) is absent; one
read 1 hour after its last activity is returned with its stored fields. -/
theorem C8_get_session_expiry_witness :
    get_session ⟨[⟨"a", "p", 0, 0⟩], [], 0⟩ "a" 90000 = none ∧
    get_session ⟨[⟨"a", "p", 0, 0⟩], [], 0⟩ "a" 3600 = some ⟨"a", "p", 0, 0⟩ :=
  ⟨(C8_get_session_expiry ⟨[⟨"a", "p", 0, 0⟩], [], 0⟩ "a" 90000).1.mpr
      (Or.inr ⟨⟨"a", "p", 0, 0⟩, by decide, by decide⟩),
    (C8_get_session_expiry ⟨[⟨"a", "p", 0, 0⟩], [], 0⟩ "a" 3600).2
      ⟨"a", "p", 0, 0⟩ (by decide) (by decide)⟩

/-- C10: `get_session` only executes a SELECT, so reading leaves the whole
database — in particular every session's `last_active` — unchanged, and any
number of repeated reads still leaves it unchanged; `last_active` is
refreshed (to the write's time, for the addressed session only) by
`add_message` through `update_session_activity`, while the message-table
operations `clear_conversation` and `cleanup_old_messages` never touch the
sessions table. -/
theorem C10_get_session_pure (s : DBState) (sid fid : String) (now : Nat)
    (role msg : String) (n : Nat) :
    (get_session_op s sid now).2 = s ∧
    (fun st => (get_session_op st sid now).2)^[n] s = s ∧
    (add_message s now sid fid role msg).sessions
      = s.sessions.map (fun r =>
          if r.session_id == sid then { r with last_active := now } else r) ∧
    (clear_conversation s sid fid).sessions = s.sessions ∧
    (cleanup_old_messages s sid fid).sessions = s.sessions := by
  refine ⟨rfl, ?_, rfl, rfl, rfl⟩
  induction n with
  | zero => rfl
  | succ k ih => rw [Function.iterate_succ_apply, show (get_session_op s sid now).2 = s from rfl, ih]

/-!
The sandbox executor (`src/executor.py`) and the matplotlib pyplot surface
it mutates.  The pyplot semantics modelled here follow the library's
documented behaviour: `gcf()` returns the current figure and *creates and
registers a new empty figure if none exists*; `clf()` is `gcf().clear()`;
`switch_backend(...)` begins by calling `close("all")`; `savefig` renders
the current figure; `close("all")` destroys every figure.  The `df`/`pd`
bindings passed to the script do not touch the rendering surface and are
not modelled.
-/

/-- An open matplotlib figure: its number and the tags of what was drawn
onto it (its rendering). -/
structure Figure where
  fignum : Nat
  content : List String
deriving Repr, DecidableEq

/-- The process-wide pyplot state: open figures, the current figure, and
the next figure number. -/
structure PltState where
  figures : List Figure
  current : Option Nat
  nextFig : Nat
deriving Repr, DecidableEq

/-- `plt.close('all')`. -/
def plt_close_all (st : PltState) : PltState :=
  { st with figures := [], current := none }

def findFig (st : PltState) (n : Nat) : Option Figure :=
  st.figures.find? (fun f => f.fignum == n)

/-- `plt.gcf()`: the current figure if one is open, otherwise a freshly
created and registered empty figure. -/
def plt_gcf (st : PltState) : PltState × Nat :=
  match st.current with
  | some n =>
    if (findFig st n).isSome then (st, n)
    else
      ({ st with
          figures := st.figures ++ [⟨st.nextFig, []⟩],
          current := some st.nextFig,
          nextFig := st.nextFig + 1 }, st.nextFig)
  | none =>
    ({ st with
        figures := st.figures ++ [⟨st.nextFig, []⟩],
        current := some st.nextFig,
        nextFig := st.nextFig + 1 }, st.nextFig)

/-- `plt.clf()`, i.e. `gcf().clear()`: clears the current figure's content,
creating an empty figure first when none is open. -/
def plt_clf (st : PltState) : PltState :=
  let p := plt_gcf st
  { p.1 with figures := p.1.figures.map (fun f =>
      if f.fignum == p.2 then { f with content := [] } else f) }

/-- A plotting call (e.g. `plt.plot`, `df.plot`): draws on the current
figure, creating one if needed. -/
def plt_draw (st : PltState) (tag : String) : PltState :=
  let p := plt_gcf st
  { p.1 with figures := p.1.figures.map (fun f =>
      if f.fignum == p.2 then { f with content := f.content ++ [tag] } else f) }

/-- `plt.get_fignums()`: the numbers of the open figures. -/
def plt_get_fignums (st : PltState) : List Nat :=
  st.figures.map (fun f => f.fignum)

/-- `plt.savefig(...)`: rasterize the current figure; the produced image is
its content. -/
def plt_savefig (st : PltState) : PltState × List String :=
  let p := plt_gcf st
  (p.1, ((findFig p.1 p.2).map (fun f => f.content)).getD [])

/-- One step of a synthesized script, as it acts on the surface: a plotting
call, a `plt.close('all')`, or a raised exception. -/
inductive ScriptOp where
  | draw (tag : String)
  | close_all
  | raiseErr (msg : String)
deriving Repr, DecidableEq

/-- Run the script's steps; an exception aborts with the message and the
surface state at the raise point. -/
def runScript : List ScriptOp → PltState → Except (String × PltState) PltState
  | [], st => .ok st
  | op :: rest, st =>
    match op with
    | .draw tag => runScript rest (plt_draw st tag)
    | .close_all => runScript rest (plt_close_all st)
    | .raiseErr msg => .error (msg, st)

/-- The executor's result dictionary. -/
inductive ExecResult where
  | success (image : List String)
  | failure (error : String)
deriving Repr, DecidableEq

/-- The no-plot error message of executor.py. -/
def noPlotMsg : String :=
  "No plot was generated. Ensure code calls plt.plot() or similar."

/-- `execute_chart_code`: switch to the Agg backend (which closes all
figures), clear the current figure, run the script, then either rasterize
and close everything, report no plot, or catch the exception and close
everything. -/
def execute_chart_code (code : List ScriptOp) (st : PltState) :
    ExecResult × PltState :=
  match runScript code (plt_clf (plt_close_all st)) with
  | .ok st3 =>
    if (plt_get_fignums st3).isEmpty then
      (.failure noPlotMsg, st3)
    else
      let p := plt_savefig st3
      (.success p.2, plt_close_all p.1)
  | .error e =>
    (.failure ("Execution error: " ++ e.1), plt_close_all e.2)

/-- The pyplot state before any figure exists. -/
def pltInit : PltState := ⟨[], none, 0⟩

/-- C6: at the spec's own scenario — a first call whose script draws, then
a second call whose script draws nothing — the second call returns SUCCESS
with a blank image rather than the claimed no-plot error: `plt.clf()` goes
through `gcf()`, which registers a fresh empty figure, so
`plt.get_fignums()` is non-empty even though the script plotted nothing
(this is also what makes test 3 of test_phase2.py fail).  The first call's
figure itself does not leak: the second image is blank. -/
theorem C6_no_plot_check_defeated :
    (execute_chart_code [ScriptOp.draw "A"] pltInit).1 = ExecResult.success ["A"] ∧
    (execute_chart_code [] (execute_chart_code [ScriptOp.draw "A"] pltInit).2).1
      = ExecResult.success [] ∧
    (execute_chart_code [] (execute_chart_code [ScriptOp.draw "A"] pltInit).2).1
      ≠ ExecResult.failure noPlotMsg := by
  exact ⟨rfl, rfl, by decide⟩

/-- The atomic pyplot actions an `execute_chart_code` call performs on the
shared surface, in program order. -/
inductive ExAct where
  | switchBackend
  | clf
  | scriptOp (op : ScriptOp)
  | extract
deriving Repr, DecidableEq

/-- The action trace of one `execute_chart_code` call. -/
def traceOf (code : List ScriptOp) : List ExAct :=
  ExAct.switchBackend :: ExAct.clf :: (code.map ExAct.scriptOp ++ [ExAct.extract])

/-- One thread of a concurrent run: its remaining actions and its call's
result once finished. -/
structure ThreadCfg where
  pending : List ExAct
  result : Option ExecResult
deriving Repr, DecidableEq

/-- Execute a thread's next pending action against the shared surface. -/
def stepAct (st : PltState) (t : ThreadCfg) : PltState × ThreadCfg :=
  match t.pending with
  | [] => (st, t)
  | a :: rest =>
    match a with
    | .switchBackend => (plt_close_all st, { t with pending := rest })
    | .clf => (plt_clf st, { t with pending := rest })
    | .scriptOp (.draw tag) => (plt_draw st tag, { t with pending := rest })
    | .scriptOp .close_all => (plt_close_all st, { t with pending := rest })
    | .scriptOp (.raiseErr msg) =>
      (plt_close_all st, ⟨[], some (.failure ("Execution error: " ++ msg))⟩)
    | .extract =>
      if (plt_get_fignums st).isEmpty then
        (st, ⟨rest, some (.failure noPlotMsg)⟩)
      else
        let p := plt_savefig st
        (plt_close_all p.1, ⟨rest, some (.success p.2)⟩)

/-- Run two overlapping calls under a schedule: `true` steps the first
thread, `false` the second. -/
def runSched : List Bool → PltState → ThreadCfg → ThreadCfg →
    PltState × ThreadCfg × ThreadCfg
  | [], st, a, b => (st, a, b)
  | c :: rest, st, a, b =>
    if c then
      let p := stepAct st a
      runSched rest p.1 p.2 b
    else
      let p := stepAct st b
      runSched rest p.1 a p.2

/-- C5: executor.py acquires no lock, and the pyplot actions of two
overlapping `execute_chart_code` calls can interleave on the process-wide
surface.  Run solo, the action traces reproduce `execute_chart_code`
exactly; but under the schedule A,A,A,B,B,A,B (thread A's script draws,
thread B's draws nothing), B's backend switch closes A's figure before A
extracts, so A returns a blank image taken from B's freshly created figure
— not A's own result under either serial order — and B then reports the
no-plot error.  No mutual exclusion protects clear/run/extract. -/
theorem C5_no_mutual_exclusion :
    runSched (List.replicate 4 true) pltInit
        ⟨traceOf [ScriptOp.draw "A"], none⟩ ⟨traceOf [], none⟩
      = ((execute_chart_code [ScriptOp.draw "A"] pltInit).2,
          ⟨[], some (execute_chart_code [ScriptOp.draw "A"] pltInit).1⟩,
          ⟨traceOf [], none⟩) ∧
    runSched (List.replicate 3 false) pltInit
        ⟨traceOf [ScriptOp.draw "A"], none⟩ ⟨traceOf [], none⟩
      = ((execute_chart_code [] pltInit).2,
          ⟨traceOf [ScriptOp.draw "A"], none⟩,
          ⟨[], some (execute_chart_code [] pltInit).1⟩) ∧
    (runSched [true, true, true, false, false, true, false] pltInit
        ⟨traceOf [ScriptOp.draw "A"], none⟩ ⟨traceOf [], none⟩).2.1.result
      = some (ExecResult.success []) ∧
    (runSched [true, true, true, false, false, true, false] pltInit
        ⟨traceOf [ScriptOp.draw "A"], none⟩ ⟨traceOf [], none⟩).2.2.result
      = some (ExecResult.failure noPlotMsg) ∧
    (runSched [true, true, true, false, false, true, false] pltInit
        ⟨traceOf [ScriptOp.draw "A"], none⟩ ⟨traceOf [], none⟩).2.1.result
      ≠ some (execute_chart_code [ScriptOp.draw "A"] pltInit).1 ∧
    (execute_chart_code [ScriptOp.draw "A"] pltInit).1 = ExecResult.success ["A"] ∧
    (execute_chart_code [ScriptOp.draw "A"]
        (execute_chart_code [] pltInit).2).1 = ExecResult.success ["A"] := by
  refine ⟨rfl, rfl, rfl, rfl, by decide, rfl, rfl⟩

/-!
The orchestrator endpoint `generate_chart` in main.py.  The brain outcome
(`generate_visualization`) and executor outcome are passed in as values —
the real code computes them through `call_llm` / `execute_chart_code` —
and the two `add_message` writes happen at clock readings `t1` then `t2`.
-/

/-- The brain outcome as main.py branches on it: `status != "success"`
(skip, clarification, or an LLM failure) with its message, a successful
text answer, or successfully synthesized chart code. -/
inductive BrainResult where
  | notSuccess (message : String)
  | textSuccess (message : String)
  | chartSuccess (code : String)
deriving Repr, DecidableEq

/-- The `/generate` JSON response (absent fields are `none`). -/
structure GenResponse where
  success : Bool
  message : Option String
  image : Option (List String)
  code : Option String
  error : Option String
  rtype : String
  message_count : Nat
deriving Repr, DecidableEq

/-- The assistant turn main.py logs at each terminal state: the full
message on text paths, the fixed chart note on chart success, the error
description on render errors. -/
def loggedAssistantText (query : String) : BrainResult → ExecResult → String
  | .notSuccess m, _ => m
  | .textSuccess m, _ => m
  | .chartSuccess _, .success _ => "Generated chart for: " ++ query
  | .chartSuccess _, .failure e => "Execution error: " ++ e

/-- `generate_chart` (main.py, history side effects and response): append
the user turn, branch on the brain outcome (and the executor outcome on
the chart path), append the assistant turn, and report the key's message
count — all appends only when a session is active. -/
def generate_chart (s : DBState) (session_id : Option String)
    (file_id query : String) (brain : BrainResult) (execRes : ExecResult)
    (t1 t2 : Nat) : GenResponse × DBState :=
  let s1 := match session_id with
    | some sid => add_message s t1 sid file_id "user" query
    | none => s
  match brain with
  | .notSuccess msg =>
    let s2 := match session_id with
      | some sid => add_message s1 t2 sid file_id "assistant" msg
      | none => s1
    ({ success := false, message := some msg, image := none, code := none,
       error := none, rtype := "text_response",
       message_count := match session_id with
         | some sid => get_message_count s2 sid file_id
         | none => 0 }, s2)
  | .textSuccess msg =>
    let s2 := match session_id with
      | some sid => add_message s1 t2 sid file_id "assistant" msg
      | none => s1
    ({ success := true, message := some msg, image := none, code := none,
       error := none, rtype := "text_response",
       message_count := match session_id with
         | some sid => get_message_count s2 sid file_id
         | none => 0 }, s2)
  | .chartSuccess code =>
    match execRes with
    | .success img =>
      let s2 := match session_id with
        | some sid => add_message s1 t2 sid file_id "assistant"
            ("Generated chart for: " ++ query)
        | none => s1
      ({ success := true, message := some "Chart generated.", image := some img,
         code := some code, error := none, rtype := "image_response",
         message_count := match session_id with
           | some sid => get_message_count s2 sid file_id
           | none => 0 }, s2)
    | .failure err =>
      let s2 := match session_id with
        | some sid => add_message s1 t2 sid file_id "assistant"
            ("Execution error: " ++ err)
        | none => s1
      ({ success := false,
         message := some "Code generation produced an error during execution.",
         image := none, code := some code, error := some err,
         rtype := "error_response",
         message_count := match session_id with
           | some sid => get_message_count s2 sid file_id
           | none => 0 }, s2)

/-- Two consecutive appends (user then assistant) leave the key's log equal
to the newest-10 suffix of (old log ++ the two new turns). -/
theorem add_two_messages_spec (s : DBState) (sid fid query atext : String)
    (t1 t2 : Nat) (hWF : WF s) (hf : ∀ c ∈ s.conversations, c.timestamp < t1)
    (h12 : t1 < t2) :
    keyRows (add_message (add_message s t1 sid fid "user" query) t2 sid fid
        "assistant" atext) sid fid
      = trimLast MAX_MESSAGES (keyRows s sid fid ++
          [⟨s.nextRowId, sid, fid, "user", query, t1⟩,
           ⟨s.nextRowId + 1, sid, fid, "assistant", atext, t2⟩]) := by
  obtain ⟨hk1, hWF1, hnid1, hsub1⟩ := add_message_spec s t1 sid fid "user" query hWF hf
  have hf2 : ∀ c ∈ (add_message s t1 sid fid "user" query).conversations,
      c.timestamp < t2 := by
    intro c hc
    rcases List.mem_append.mp (hsub1.subset hc) with h | h
    · exact lt_trans (hf c h) h12
    · rw [List.mem_singleton] at h
      subst h
      exact h12
  obtain ⟨hk2, _, _, _⟩ :=
    add_message_spec _ t2 sid fid "assistant" atext hWF1 hf2
  rw [hk2]
  simp only [newConvRow]
  rw [hnid1, hk1]
  simp only [newConvRow]
  rw [trimLast_append_trimLast, List.append_assoc]
  rfl

/-- C4: for every request reaching a terminal state (skip/clarify/answer
via `notSuccess` or `textSuccess`, chart via `chartSuccess` with executor
success, render error via executor failure) while a session is active, the
orchestrator appends exactly one user turn carrying the raw query and
exactly one assistant turn carrying the path's logged text (full message on
text paths, "Generated chart for: <query>" on chart success, the error
description on render errors) to the store — the key's log becomes the
newest-10 suffix of (old log ++ those two turns) — and the returned
message_count is the key's turn count after both appends. -/
theorem C4_orchestrator_history (s : DBState) (sid fid query : String)
    (brain : BrainResult) (execRes : ExecResult) (t1 t2 : Nat)
    (hWF : WF s) (hf : ∀ c ∈ s.conversations, c.timestamp < t1) (h12 : t1 < t2) :
    keyRows (generate_chart s (some sid) fid query brain execRes t1 t2).2 sid fid
      = trimLast MAX_MESSAGES (keyRows s sid fid ++
          [⟨s.nextRowId, sid, fid, "user", query, t1⟩,
           ⟨s.nextRowId + 1, sid, fid, "assistant",
             loggedAssistantText query brain execRes, t2⟩]) ∧
    (generate_chart s (some sid) fid query brain execRes t1 t2).1.message_count
      = get_message_count
          (generate_chart s (some sid) fid query brain execRes t1 t2).2 sid fid ∧
    get_message_count
        (generate_chart s (some sid) fid query brain execRes t1 t2).2 sid fid
      = (keyRows (generate_chart s (some sid) fid query brain execRes t1 t2).2
          sid fid).length := by
  cases brain with
  | notSuccess m =>
    exact ⟨add_two_messages_spec s sid fid query m t1 t2 hWF hf h12, rfl, rfl⟩
  | textSuccess m =>
    exact ⟨add_two_messages_spec s sid fid query m t1 t2 hWF hf h12, rfl, rfl⟩
  | chartSuccess code =>
    cases execRes with
    | success img =>
      exact ⟨add_two_messages_spec s sid fid query
        ("Generated chart for: " ++ query) t1 t2 hWF hf h12, rfl, rfl⟩
    | failure err =>
      exact ⟨add_two_messages_spec s sid fid query
        ("Execution error: " ++ err) t1 t2 hWF hf h12, rfl, rfl⟩

/-- C4 witness: concrete chart-success request on an empty store. -/
theorem C4_orchestrator_history_witness :
    WF ⟨[], [], 0⟩ ∧ (1 : Nat) < 2 ∧
    keyRows (generate_chart ⟨[], [], 0⟩ (some "s") "f" "q"
        (BrainResult.chartSuccess "c") (ExecResult.success ["i"]) 1 2).2 "s" "f"
      = trimLast MAX_MESSAGES (keyRows ⟨[], [], 0⟩ "s" "f" ++
          [⟨0, "s", "f", "user", "q", 1⟩,
           ⟨1, "s", "f", "assistant",
             loggedAssistantText "q" (BrainResult.chartSuccess "c")
               (ExecResult.success ["i"]), 2⟩]) :=
  ⟨by decide, by decide,
    (C4_orchestrator_history ⟨[], [], 0⟩ "s" "f" "q"
      (BrainResult.chartSuccess "c") (ExecResult.success ["i"]) 1 2
      (by decide) (by decide) (by decide)).1⟩

/-- C7: an exception raised while the script runs is caught, not
propagated: `execute_chart_code` returns a failure whose error string is
"Execution error: " followed by the original message, with all figures
closed on that path; and the orchestrator's render-error response carries
the script text (`code`) alongside the error string, as an
`error_response` with `success = false`. -/
theorem C7_error_capture :
    (∀ (st : PltState) (code : List ScriptOp) (msg : String) (stE : PltState),
      runScript code (plt_clf (plt_close_all st)) = .error (msg, stE) →
      execute_chart_code code st
        = (ExecResult.failure ("Execution error: " ++ msg), plt_close_all stE) ∧
      (execute_chart_code code st).2.figures = []) ∧
    (∀ (s : DBState) (sid fid query codeText err : String) (t1 t2 : Nat),
      (generate_chart s (some sid) fid query (BrainResult.chartSuccess codeText)
          (ExecResult.failure err) t1 t2).1.success = false ∧
      (generate_chart s (some sid) fid query (BrainResult.chartSuccess codeText)
          (ExecResult.failure err) t1 t2).1.code = some codeText ∧
      (generate_chart s (some sid) fid query (BrainResult.chartSuccess codeText)
          (ExecResult.failure err) t1 t2).1.error = some err ∧
      (generate_chart s (some sid) fid query (BrainResult.chartSuccess codeText)
          (ExecResult.failure err) t1 t2).1.rtype = "error_response") := by
  constructor
  · intro st code msg stE h
    have he : execute_chart_code code st
        = (ExecResult.failure ("Execution error: " ++ msg), plt_close_all stE) := by
      unfold execute_chart_code
      rw [h]
    exact ⟨he, by rw [he]; rfl⟩
  · intro s sid fid query codeText err t1 t2
    exact ⟨rfl, rfl, rfl, rfl⟩

/-- C7 witness: a concrete raising script, executed from the initial
surface. -/
theorem C7_error_capture_witness :
    runScript [ScriptOp.raiseErr "boom"] (plt_clf (plt_close_all pltInit))
      = Except.error ("boom", ⟨[⟨0, []⟩], some 0, 1⟩) ∧
    execute_chart_code [ScriptOp.raiseErr "boom"] pltInit
      = (ExecResult.failure ("Execution error: " ++ "boom"),
          plt_close_all ⟨[⟨0, []⟩], some 0, 1⟩) ∧
    (execute_chart_code [ScriptOp.raiseErr "boom"] pltInit).2.figures = [] :=
  ⟨rfl,
    (C7_error_capture.1 pltInit [ScriptOp.raiseErr "boom"] "boom"
      ⟨[⟨0, []⟩], some 0, 1⟩ rfl).1,
    (C7_error_capture.1 pltInit [ScriptOp.raiseErr "boom"] "boom"
      ⟨[⟨0, []⟩], some 0, 1⟩ rfl).2⟩

/-!
The intent classifier `detect_intent` (src/brain.py).  The completion call
(`call_llm`) and `json.loads` are external collaborators, passed in as
fallible functions; any exception either raises is the `.error` case.
-/

/-- A history turn as brain.py reads it. -/
structure ChatMsg where
  role : String
  content : String
deriving Repr, DecidableEq

/-- `format_conversation_context`: role-labelled lines, oldest first. -/
def format_conversation_context (messages : List ChatMsg) : String :=
  if messages.isEmpty then ""
  else
    messages.foldl (fun context msg =>
      context ++ (if msg.role == "user" then "User" else "Assistant")
        ++ ": " ++ msg.content ++ "\n")
      "\n\nPrevious Conversation:\n"

/-- The classifier's decision dictionary.  The fallback dictionary in the
source has no `clarification_message` key; that is `none` here. -/
structure IntentDecision where
  is_related : Bool
  is_visualization : Bool
  needs_clarification : Bool
  clarification_message : Option String
  rationale : String
deriving Repr, DecidableEq

/-- `context = format_conversation_context(...) if conversation_history
else ""`. -/
def intent_context (conversation_history : List ChatMsg) : String :=
  if conversation_history.isEmpty then ""
  else format_conversation_context conversation_history

/-- The classifier's system prompt (the rendered f-string of
`detect_intent`). -/
def intent_system_prompt (profileJson context user_query : String) : String :=
  "\nYou are a smart data analyst assistant. \nYour job is to analyze a User Query in the context of a Dataset Profile and determine the user's intent.\n\nDataset Profile:\n"
  ++ profileJson ++ "\n" ++ context ++ "\n\nUser Query:\n\"" ++ user_query
  ++ "\"\n\nTask:\nDetermine if the user wants to visualize data from this dataset.\n1. **Is Related**: Does the query refer to the data columns available? Or is it a generic greeting/unrelated question like \"How are you?\" or \"Write me a poem\"?\n2. **Is Visualization**: Does the user imply seeing a chart, plot, diagram, or trend?\n3. **Needs Clarification**: Is the query too vague to produce ANY meaningful chart (e.g. \"Show me data\" without saying what)? \n   - Note: If the query is \"Show me trends\" and there are date/numeric columns, you should try your best (Needs Clarification = False). Only return True if it is impossible to infer a reasonable default.\n   - Consider previous conversation context when determining if clarification is needed.\n\nOutput strictly valid JSON in the following format:\n\x7b\n    \"is_related\": boolean,\n    \"is_visualization\": boolean,\n    \"needs_clarification\": boolean,\n    \"clarification_message\": \"string (only if needs_clarification is true, else null)\",\n    \"rationale\": \"short explanation\"\n\x7d\n"

/-- The permissive fallback dictionary of `detect_intent`'s except clause. -/
def fallback_decision (e : String) : IntentDecision :=
  { is_related := true, is_visualization := true, needs_clarification := false,
    clarification_message := none, rationale := "Parsing failed: " ++ e }

/-- The markdown fence stripping before `json.loads`. -/
def clean_llm_json (response_text : String) : String :=
  ((response_text.trim).replace "```json" "").replace "```" ""

/-- `detect_intent`: build the grounding prompt, call the completion
function, strip fences, parse; any failure yields the permissive
fallback — the function is total, so no exception escapes. -/
def detect_intent (call_llm : String → Except String String)
    (json_loads : String → Except String IntentDecision)
    (profileJson user_query : String) (conversation_history : List ChatMsg) :
    IntentDecision :=
  match call_llm (intent_system_prompt profileJson
      (intent_context conversation_history) user_query) with
  | .error e => fallback_decision e
  | .ok response_text =>
    match json_loads (clean_llm_json response_text) with
    | .error e => fallback_decision e
    | .ok d => d

/-- C2: whenever the completion call raises or its output fails to parse as
JSON, `detect_intent` returns the permissive fallback — `is_related = true`,
`is_visualization = true`, `needs_clarification = false` — whose rationale
is the non-empty string "Parsing failed: " followed by the failure message;
being a total function of the failure, the classifier never propagates the
exception. -/
theorem C2_classifier_fallback (call_llm : String → Except String String)
    (json_loads : String → Except String IntentDecision)
    (profileJson user_query : String) (history : List ChatMsg) :
    (∀ e, call_llm (intent_system_prompt profileJson (intent_context history)
        user_query) = .error e →
      detect_intent call_llm json_loads profileJson user_query history
        = fallback_decision e) ∧
    (∀ t e, call_llm (intent_system_prompt profileJson (intent_context history)
        user_query) = .ok t →
      json_loads (clean_llm_json t) = .error e →
      detect_intent call_llm json_loads profileJson user_query history
        = fallback_decision e) ∧
    (∀ e, (fallback_decision e).is_related = true ∧
      (fallback_decision e).is_visualization = true ∧
      (fallback_decision e).needs_clarification = false ∧
      (fallback_decision e).rationale = "Parsing failed: " ++ e ∧
      (fallback_decision e).rationale ≠ "") := by
  refine ⟨?_, ?_, ?_⟩
  · intro e h
    unfold detect_intent
    rw [h]
  · intro t e h1 h2
    unfold detect_intent
    simp only [h1, h2]
  · intro e
    refine ⟨rfl, rfl, rfl, rfl, ?_⟩
    intro h
    have h2 : "Parsing failed: " ++ e = "" := h
    have hlen := congrArg String.length h2
    rw [String.length_append,
      show ("Parsing failed: ").length = 16 from rfl, String.length_empty] at hlen
    omega

/-- C2 witness: a completion function that always fails, at a concrete
profile, query and empty history. -/
theorem C2_classifier_fallback_witness :
    detect_intent (fun _ => Except.error "LLM call failed")
        (fun _ => Except.error "bad json") "profile" "query" []
      = fallback_decision "LLM call failed" ∧
    (fallback_decision "LLM call failed").rationale ≠ "" :=
  ⟨(C2_classifier_fallback (fun _ => Except.error "LLM call failed")
      (fun _ => Except.error "bad json") "profile" "query" []).1
      "LLM call failed" rfl,
    ((C2_classifier_fallback (fun _ => Except.error "LLM call failed")
      (fun _ => Except.error "bad json") "profile" "query" []).2.2
      "LLM call failed").2.2.2.2⟩

/-!
The profile builder `generate_profile` (src/dataloader.py).  Values are
Python objects as `df.head(5).to_dict` / `df.describe().to_dict` produce
them; a float is classified exactly as `math.isnan` / `math.isinf` do.
-/

/-- A Python float as `clean_nan` classifies it: finite, NaN or ±Infinity
(the finite payload is inert for this component). -/
inductive PyFloat where
  | finite (val : Int)
  | nan
  | inf
  | ninf
deriving Repr, DecidableEq

/-- A Python value as it appears inside the profile dictionary. -/
inductive PyVal where
  | float (f : PyFloat)
  | int (n : Int)
  | str (s : String)
  | bool (b : Bool)
  | pynone
  | list (xs : List PyVal)
  | dict (kvs : List (String × PyVal))
deriving Repr

mutual

/-- `clean_nan`: recursively replace NaN/Infinity floats by None; recurse
into dict values and list elements; leave every other object unchanged. -/
def clean_nan : PyVal → PyVal
  | .float f =>
    match f with
    | .finite v => .float (.finite v)
    | _ => .pynone
  | .int n => .int n
  | .str s => .str s
  | .bool b => .bool b
  | .pynone => .pynone
  | .list xs => .list (clean_nan_list xs)
  | .dict kvs => .dict (clean_nan_dict kvs)

/-- `clean_nan` mapped over a list (the list comprehension). -/
def clean_nan_list : List PyVal → List PyVal
  | [] => []
  | x :: xs => clean_nan x :: clean_nan_list xs

/-- `clean_nan` mapped over a dict's values (the dict comprehension). -/
def clean_nan_dict : List (String × PyVal) → List (String × PyVal)
  | [] => []
  | kv :: kvs => (kv.1, clean_nan kv.2) :: clean_nan_dict kvs

end

mutual

/-- No NaN or Infinity float anywhere in the value, at any depth. -/
def finiteOnly : PyVal → Bool
  | .float f =>
    match f with
    | .finite _ => true
    | _ => false
  | .int _ => true
  | .str _ => true
  | .bool _ => true
  | .pynone => true
  | .list xs => finiteOnly_list xs
  | .dict kvs => finiteOnly_dict kvs

def finiteOnly_list : List PyVal → Bool
  | [] => true
  | x :: xs => finiteOnly x && finiteOnly_list xs

def finiteOnly_dict : List (String × PyVal) → Bool
  | [] => true
  | kv :: kvs => finiteOnly kv.2 && finiteOnly_dict kvs

end

/-- The inputs `generate_profile` reads off the DataFrame: columns, dtypes
(already stringified), the row records, and the fallible
`df.describe(include='all').to_dict()`. -/
structure PyDataFrame where
  columns : List String
  dtypes : List (String × String)
  rows : List (List (String × PyVal))
  describe : Except String (List (String × List (String × PyVal)))

/-- `generate_profile`: assemble columns, dtypes, row_count, the first 5
rows, and the describe-summary (empty dict when describe raises), then
apply `clean_nan` to the whole profile before returning it. -/
def generate_profile (df : PyDataFrame) : PyVal :=
  let dtypes := PyVal.dict (df.dtypes.map (fun p => (p.1, PyVal.str p.2)))
  let sample_rows := PyVal.list ((df.rows.take 5).map (fun r => PyVal.dict r))
  let numeric_summary :=
    match df.describe with
    | .ok d => PyVal.dict (d.map (fun p => (p.1, PyVal.dict p.2)))
    | .error _ => PyVal.dict []
  clean_nan (PyVal.dict
    [("columns", PyVal.list (df.columns.map PyVal.str)),
     ("dtypes", dtypes),
     ("row_count", PyVal.int df.rows.length),
     ("sample_rows", sample_rows),
     ("numeric_summary", numeric_summary)])

/-- Joint strong induction: the output of `clean_nan` never contains a
non-finite float, at any depth. -/
theorem clean_nan_finiteOnly_aux : ∀ n : Nat,
    (∀ v : PyVal, sizeOf v ≤ n → finiteOnly (clean_nan v) = true) ∧
    (∀ xs : List PyVal, sizeOf xs ≤ n →
      finiteOnly_list (clean_nan_list xs) = true) ∧
    (∀ kvs : List (String × PyVal), sizeOf kvs ≤ n →
      finiteOnly_dict (clean_nan_dict kvs) = true) := by
  intro n
  induction n using Nat.strong_induction_on with
  | _ n ih =>
    refine ⟨?_, ?_, ?_⟩
    · intro v hv
      cases v with
      | float f => cases f <;> simp [clean_nan, finiteOnly]
      | int m => simp [clean_nan, finiteOnly]
      | str s => simp [clean_nan, finiteOnly]
      | bool b => simp [clean_nan, finiteOnly]
      | pynone => simp [clean_nan, finiteOnly]
      | list xs =>
        have h1 : 1 + sizeOf xs ≤ n := by simpa using hv
        have := (ih (sizeOf xs) (by omega)).2.1 xs (Nat.le_refl _)
        simp [clean_nan, finiteOnly, this]
      | dict kvs =>
        have h1 : 1 + sizeOf kvs ≤ n := by simpa using hv
        have := (ih (sizeOf kvs) (by omega)).2.2 kvs (Nat.le_refl _)
        simp [clean_nan, finiteOnly, this]
    · intro xs hxs
      cases xs with
      | nil => simp [clean_nan_list, finiteOnly_list]
      | cons x rest =>
        have h1 : 1 + sizeOf x + sizeOf rest ≤ n := by simpa using hxs
        have e1 := (ih (sizeOf x) (by omega)).1 x (Nat.le_refl _)
        have e2 := (ih (sizeOf rest) (by omega)).2.1 rest (Nat.le_refl _)
        simp [clean_nan_list, finiteOnly_list, e1, e2]
    · intro kvs hkvs
      cases kvs with
      | nil => simp [clean_nan_dict, finiteOnly_dict]
      | cons kv rest =>
        obtain ⟨k, v⟩ := kv
        have h1 : 1 + (1 + sizeOf k + sizeOf v) + sizeOf rest ≤ n := by
          simpa using hkvs
        have e1 := (ih (sizeOf v) (by omega)).1 v (Nat.le_refl _)
        have e2 := (ih (sizeOf rest) (by omega)).2.2 rest (Nat.le_refl _)
        simp [clean_nan_dict, finiteOnly_dict, e1, e2]

/-- C3: for every input table — whatever NaN or ±Infinity values its cells
or per-column statistics contain, at any nesting depth — the profile
returned by `generate_profile` contains no NaN or Infinity anywhere: every
non-finite float has been replaced by None before the profile is
returned. -/
theorem C3_profile_no_nonfinite (df : PyDataFrame) :
    finiteOnly (generate_profile df) = true :=
  (clean_nan_finiteOnly_aux (sizeOf (PyVal.dict
    [("columns", PyVal.list (df.columns.map PyVal.str)),
     ("dtypes", PyVal.dict (df.dtypes.map (fun p => (p.1, PyVal.str p.2)))),
     ("row_count", PyVal.int df.rows.length),
     ("sample_rows", PyVal.list ((df.rows.take 5).map (fun r => PyVal.dict r))),
     ("numeric_summary",
       match df.describe with
       | .ok d => PyVal.dict (d.map (fun p => (p.1, PyVal.dict p.2)))
       | .error _ => PyVal.dict [])]))).1 _ (Nat.le_refl _)

/-!
Code extraction in `generate_visualization` (src/brain.py, the markdown
section): `code.split("\x60\x60\x60python")[1].split("\x60\x60\x60")[0].strip()` when a python
fence occurs, else the same with the plain fence, else the whole
completion.  Python's `split` is modelled through the first-occurrence
scanner `firstSplit`: `split(sep)[1]` is the segment between the first and
second occurrence (or to the end), `split(sep)[0]` the segment before the
first occurrence.
-/

/-- The characters of the plain code fence. -/
def fenceChars : List Char := ['`', '`', '`']

/-- The characters of the python code fence. -/
def pythonFenceChars : List Char := ['`', '`', '`', 'p', 'y', 't', 'h', 'o', 'n']

/-- Split a text at the first occurrence of `sep`: the part before it and
the part after it (left-to-right scan, as Python's `str.split` finds its
first separator). `none` when `sep` does not occur. -/
def firstSplit (sep : List Char) : List Char → Option (List Char × List Char)
  | [] => none
  | c :: cs =>
    if sep.isPrefixOf (c :: cs) then some ([], (c :: cs).drop sep.length)
    else
      match firstSplit sep cs with
      | some p => some (c :: p.1, p.2)
      | none => none

/-- Python's `sep in s`. -/
def containsSub (sep s : List Char) : Bool := (firstSplit sep s).isSome

/-- Python's `s.split(sep)[0]`: the text before the first occurrence (the
whole text when `sep` does not occur). -/
def py_split_get0 (sep s : List Char) : List Char :=
  match firstSplit sep s with
  | none => s
  | some p => p.1

/-- Python's `s.split(sep)[1]`: the segment between the first and second
occurrences of `sep` (to the end when there is no second one); only
evaluated under an `in` guard, so the no-occurrence case is unreachable. -/
def py_split_get1 (sep s : List Char) : List Char :=
  match firstSplit sep s with
  | none => []
  | some p =>
    match firstSplit sep p.2 with
    | none => p.2
    | some q => q.1

/-- Python's `str.strip()`. -/
def pyStrip (s : List Char) : List Char :=
  ((s.dropWhile Char.isWhitespace).reverse.dropWhile Char.isWhitespace).reverse

/-- The extraction in `generate_visualization`: prefer the first python
fence, else the first plain fence, else take the entire completion; no
syntactic validation happens here. -/
def extract_code (raw : List Char) : List Char :=
  if containsSub pythonFenceChars raw then
    pyStrip (py_split_get0 fenceChars (py_split_get1 pythonFenceChars raw))
  else if containsSub fenceChars raw then
    pyStrip (py_split_get0 fenceChars (py_split_get1 fenceChars raw))
  else raw

/-- Modelled from the spec's words "extracts as the script exactly the body
of the first fenced code block in the output; if the output contains no
code fence, the entire completion text is taken": the stripped text between
the first fence and the next one. -/
def specFirstFencedBody (raw : List Char) : List Char :=
  match firstSplit fenceChars raw with
  | none => raw
  | some p =>
    match firstSplit fenceChars p.2 with
    | none => pyStrip p.2
    | some q => pyStrip q.1

/-- C9 counterexample: on a completion whose first fenced block is a plain
fence with body "A", followed by a python-fenced block with body "B", the
code extracts "B" (it prefers the python fence), not the first block's
body "A" — refuting the claim as stated. -/
theorem C9_counterexample :
    extract_code ("```\nA\n```\n```python\nB\n```".data) = "B".data ∧
    specFirstFencedBody ("```\nA\n```\n```python\nB\n```".data) = "A".data ∧
    extract_code ("```\nA\n```\n```python\nB\n```".data)
      ≠ specFirstFencedBody ("```\nA\n```\n```python\nB\n```".data) := by
  refine ⟨by decide, by decide, by decide⟩

/-- Both fences start with a backtick, so they cannot match at a
non-backtick character. -/
theorem pf_head_mismatch : ∀ (c : Char) (cs : List Char), c ≠ '`' →
    pythonFenceChars.isPrefixOf (c :: cs) = false := by
  intro c cs hc
  have hb : ('`' == c) = false := beq_eq_false_iff_ne.mpr (fun hh => hc hh.symm)
  simp [pythonFenceChars, List.isPrefixOf, hb]

theorem fence_head_mismatch : ∀ (c : Char) (cs : List Char), c ≠ '`' →
    fenceChars.isPrefixOf (c :: cs) = false := by
  intro c cs hc
  have hb : ('`' == c) = false := beq_eq_false_iff_ne.mpr (fun hh => hc hh.symm)
  simp [fenceChars, List.isPrefixOf, hb]

/-- A backtick-led separator never occurs in backtick-free text. -/
theorem firstSplit_none_of_no_backtick (sep : List Char)
    (hsep : ∀ (c : Char) (cs : List Char), c ≠ '`' → sep.isPrefixOf (c :: cs) = false)
    (s : List Char) (h : ∀ c ∈ s, c ≠ '`') : firstSplit sep s = none := by
  induction s with
  | nil => rfl
  | cons c cs ih =>
    have h1 := hsep c cs (h c (List.mem_cons_self c cs))
    have h2 := ih (fun x hx => h x (List.mem_cons_of_mem c hx))
    simp [firstSplit, h1, h2]

/-- Scanning past a backtick-free prefix: a found occurrence shifts by the
prefix. -/
theorem firstSplit_append_left_some (sep : List Char)
    (hsep : ∀ (c : Char) (cs : List Char), c ≠ '`' → sep.isPrefixOf (c :: cs) = false)
    (pre : List Char) (hpre : ∀ c ∈ pre, c ≠ '`') (s : List Char)
    (p : List Char × List Char) (h : firstSplit sep s = some p) :
    firstSplit sep (pre ++ s) = some (pre ++ p.1, p.2) := by
  induction pre with
  | nil => simpa using h
  | cons c pre' ih =>
    have h1 := hsep c (pre' ++ s) (hpre c (List.mem_cons_self _ _))
    have ih2 := ih (fun x hx => hpre x (List.mem_cons_of_mem c hx))
    simp [firstSplit, h1, ih2]

/-- Scanning past a backtick-free prefix: no occurrence stays none. -/
theorem firstSplit_append_left_none (sep : List Char)
    (hsep : ∀ (c : Char) (cs : List Char), c ≠ '`' → sep.isPrefixOf (c :: cs) = false)
    (pre : List Char) (hpre : ∀ c ∈ pre, c ≠ '`') (s : List Char)
    (h : firstSplit sep s = none) :
    firstSplit sep (pre ++ s) = none := by
  induction pre with
  | nil => simpa using h
  | cons c pre' ih =>
    have h1 := hsep c (pre' ++ s) (hpre c (List.mem_cons_self _ _))
    have ih2 := ih (fun x hx => hpre x (List.mem_cons_of_mem c hx))
    simp [firstSplit, h1, ih2]

theorem isPrefixOf_append_self (l b : List Char) :
    List.isPrefixOf l (l ++ b) = true := by
  induction l with
  | nil => simp [List.isPrefixOf]
  | cons c l ih => simp [List.isPrefixOf, ih]

/-- The separator occurs at the very front of `sep ++ b`. -/
theorem firstSplit_self (sep b : List Char) (hsep : sep ≠ []) :
    firstSplit sep (sep ++ b) = some ([], b) := by
  cases sep with
  | nil => exact absurd rfl hsep
  | cons c0 t =>
    have h1 : List.isPrefixOf (c0 :: t) (c0 :: (t ++ b)) = true :=
      isPrefixOf_append_self (c0 :: t) b
    have h2 : (c0 :: (t ++ b)).drop (c0 :: t).length = b := by
      show (t ++ b).drop t.length = b
      exact List.drop_left t b
    show firstSplit (c0 :: t) (c0 :: (t ++ b)) = some ([], b)
    simp [firstSplit, h1, h2]

/-- Where the python fence can occur in "\x60\x60\x60" ++ post when post is
backtick-free: only when post itself starts with "python" (the closing
fence then reads as an opening python fence), otherwise nowhere. -/
theorem firstSplit_pf_fence_post (post : List Char) (h : ∀ c ∈ post, c ≠ '`') :
    (∃ post', post = ['p', 'y', 't', 'h', 'o', 'n'] ++ post' ∧
      firstSplit pythonFenceChars (fenceChars ++ post) = some ([], post')) ∨
    firstSplit pythonFenceChars (fenceChars ++ post) = none := by
  by_cases hp : (['p', 'y', 't', 'h', 'o', 'n'] : List Char).isPrefixOf post
  · left
    rw [List.isPrefixOf_iff_prefix] at hp
    obtain ⟨post', rfl⟩ := hp
    refine ⟨post', rfl, ?_⟩
    show firstSplit pythonFenceChars (pythonFenceChars ++ post') = some ([], post')
    exact firstSplit_self pythonFenceChars post' (by simp [pythonFenceChars])
  · right
    have hp2 : (['p', 'y', 't', 'h', 'o', 'n'] : List Char).isPrefixOf post
        = false := by
      rw [Bool.eq_false_iff]
      exact hp
    have e1 : pythonFenceChars.isPrefixOf ('`' :: '`' :: '`' :: post) = false := by
      simp [pythonFenceChars, List.isPrefixOf] at hp2 ⊢
      exact hp2
    have e2 : pythonFenceChars.isPrefixOf ('`' :: '`' :: post) = false := by
      cases post with
      | nil => simp [pythonFenceChars, List.isPrefixOf]
      | cons c cs =>
        have hc : ('`' == c) = false :=
          beq_eq_false_iff_ne.mpr (fun hh => (h c (List.mem_cons_self c cs)) hh.symm)
        simp [pythonFenceChars, List.isPrefixOf, hc]
    have e3 : pythonFenceChars.isPrefixOf ('`' :: post) = false := by
      cases post with
      | nil => simp [pythonFenceChars, List.isPrefixOf]
      | cons c cs =>
        have hc : ('`' == c) = false :=
          beq_eq_false_iff_ne.mpr (fun hh => (h c (List.mem_cons_self c cs)) hh.symm)
        simp [pythonFenceChars, List.isPrefixOf, hc]
    have e4 : firstSplit pythonFenceChars post = none :=
      firstSplit_none_of_no_backtick pythonFenceChars pf_head_mismatch post h
    show firstSplit pythonFenceChars ('`' :: '`' :: '`' :: post) = none
    simp [firstSplit, e1, e2, e3, e4]

/-- An occurrence of an extended separator `l ++ e` is in particular an
occurrence of `l`. -/
theorem contains_of_contains_append (l e s : List Char)
    (h : (firstSplit (l ++ e) s).isSome = true) :
    (firstSplit l s).isSome = true := by
  induction s with
  | nil => simp [firstSplit] at h
  | cons c cs ih =>
    by_cases hp : (l ++ e).isPrefixOf (c :: cs) = true
    · have hl : l.isPrefixOf (c :: cs) = true := by
        rw [List.isPrefixOf_iff_prefix] at hp ⊢
        exact (List.prefix_append l e).trans hp
      simp [firstSplit, hl]
    · have hp' : (l ++ e).isPrefixOf (c :: cs) = false := by
        rw [Bool.eq_false_iff]
        exact hp
      have h' : (firstSplit (l ++ e) cs).isSome = true := by
        rw [show firstSplit (l ++ e) (c :: cs)
            = (match firstSplit (l ++ e) cs with
              | some p => some (c :: p.1, p.2)
              | none => none) from by simp [firstSplit, hp']] at h
        cases hh : firstSplit (l ++ e) cs with
        | none => rw [hh] at h; simp at h
        | some p => simp
      obtain ⟨p, hp2⟩ := Option.isSome_iff_exists.mp (ih h')
      by_cases hl : l.isPrefixOf (c :: cs) = true
      · simp [firstSplit, hl]
      · have hl' : l.isPrefixOf (c :: cs) = false := by
          rw [Bool.eq_false_iff]
          exact hl
        simp [firstSplit, hl', hp2]

/-- C9 (amended): the synthesizer prefers the python fence — when
"\x60\x60\x60python" occurs anywhere in the completion it extracts the stripped text
between the first python fence and the next fence (even if a plain fenced
block comes earlier); otherwise, when a plain fence occurs, it extracts
the stripped text between the first and second plain fences; with no fence
at all the entire completion text is the script.  No syntactic validation
is performed.  Stated for completions whose non-fence segments are
backtick-free. -/
theorem C9_code_extraction_amended :
    (∀ pre body post : List Char,
      (∀ c ∈ pre, c ≠ '`') → (∀ c ∈ body, c ≠ '`') → (∀ c ∈ post, c ≠ '`') →
      extract_code (pre ++ pythonFenceChars ++ body ++ fenceChars ++ post)
        = pyStrip body) ∧
    (∀ pre body post : List Char,
      (∀ c ∈ pre, c ≠ '`') → (∀ c ∈ body, c ≠ '`') →
      containsSub pythonFenceChars
          (pre ++ fenceChars ++ body ++ fenceChars ++ post) = false →
      extract_code (pre ++ fenceChars ++ body ++ fenceChars ++ post)
        = pyStrip body) ∧
    (∀ raw : List Char, containsSub fenceChars raw = false →
      extract_code raw = raw) := by
  refine ⟨?_, ?_, ?_⟩
  · intro pre body post hpre hbody hpost
    have hassoc : pre ++ pythonFenceChars ++ body ++ fenceChars ++ post
        = pre ++ (pythonFenceChars ++ (body ++ (fenceChars ++ post))) := by
      simp [List.append_assoc]
    rw [hassoc]
    have hself : firstSplit pythonFenceChars
        (pythonFenceChars ++ (body ++ (fenceChars ++ post)))
        = some ([], body ++ (fenceChars ++ post)) :=
      firstSplit_self _ _ (by simp [pythonFenceChars])
    have h1 : firstSplit pythonFenceChars
        (pre ++ (pythonFenceChars ++ (body ++ (fenceChars ++ post))))
        = some (pre, body ++ (fenceChars ++ post)) := by
      have := firstSplit_append_left_some pythonFenceChars pf_head_mismatch
        pre hpre _ _ hself
      simpa using this
    have hc1 : containsSub pythonFenceChars
        (pre ++ (pythonFenceChars ++ (body ++ (fenceChars ++ post)))) = true := by
      simp [containsSub, h1]
    have hval : py_split_get0 fenceChars (py_split_get1 pythonFenceChars
        (pre ++ (pythonFenceChars ++ (body ++ (fenceChars ++ post))))) = body := by
      rcases firstSplit_pf_fence_post post hpost with ⟨post', hpeq, hsome⟩ | hnone
      · have hX : firstSplit pythonFenceChars (body ++ (fenceChars ++ post))
            = some (body, post') := by
          have := firstSplit_append_left_some pythonFenceChars pf_head_mismatch
            body hbody _ _ hsome
          simpa using this
        have hg1 : py_split_get1 pythonFenceChars
            (pre ++ (pythonFenceChars ++ (body ++ (fenceChars ++ post))))
            = body := by
          unfold py_split_get1
          rw [h1]
          simp [hX]
        rw [hg1]
        unfold py_split_get0
        rw [firstSplit_none_of_no_backtick fenceChars fence_head_mismatch body hbody]
      · have hX : firstSplit pythonFenceChars (body ++ (fenceChars ++ post))
            = none :=
          firstSplit_append_left_none pythonFenceChars pf_head_mismatch
            body hbody _ hnone
        have hg1 : py_split_get1 pythonFenceChars
            (pre ++ (pythonFenceChars ++ (body ++ (fenceChars ++ post))))
            = body ++ (fenceChars ++ post) := by
          unfold py_split_get1
          rw [h1]
          simp [hX]
        rw [hg1]
        unfold py_split_get0
        have hXf : firstSplit fenceChars (body ++ (fenceChars ++ post))
            = some (body, post) := by
          have := firstSplit_append_left_some fenceChars fence_head_mismatch
            body hbody _ _ (firstSplit_self fenceChars post (by simp [fenceChars]))
          simpa using this
        rw [hXf]
    simp [extract_code, hc1, hval]
  · intro pre body post hpre hbody hpf
    have hassoc : pre ++ fenceChars ++ body ++ fenceChars ++ post
        = pre ++ (fenceChars ++ (body ++ (fenceChars ++ post))) := by
      simp [List.append_assoc]
    rw [hassoc] at hpf ⊢
    have h1 : firstSplit fenceChars
        (pre ++ (fenceChars ++ (body ++ (fenceChars ++ post))))
        = some (pre, body ++ (fenceChars ++ post)) := by
      have := firstSplit_append_left_some fenceChars fence_head_mismatch pre hpre _ _
        (firstSplit_self fenceChars (body ++ (fenceChars ++ post))
          (by simp [fenceChars]))
      simpa using this
    have hcf : containsSub fenceChars
        (pre ++ (fenceChars ++ (body ++ (fenceChars ++ post)))) = true := by
      simp [containsSub, h1]
    have hXf : firstSplit fenceChars (body ++ (fenceChars ++ post))
        = some (body, post) := by
      have := firstSplit_append_left_some fenceChars fence_head_mismatch body hbody _ _
        (firstSplit_self fenceChars post (by simp [fenceChars]))
      simpa using this
    have hg1 : py_split_get1 fenceChars
        (pre ++ (fenceChars ++ (body ++ (fenceChars ++ post)))) = body := by
      unfold py_split_get1
      rw [h1]
      simp [hXf]
    have hg0 : py_split_get0 fenceChars body = body := by
      unfold py_split_get0
      rw [firstSplit_none_of_no_backtick fenceChars fence_head_mismatch body hbody]
    simp [extract_code, hpf, hcf, hg1, hg0]
  · intro raw hf
    have hpf : containsSub pythonFenceChars raw = false := by
      rw [Bool.eq_false_iff]
      intro hcon
      have hcon' : (firstSplit (fenceChars ++ ['p', 'y', 't', 'h', 'o', 'n'])
          raw).isSome = true := by
        rw [show fenceChars ++ ['p', 'y', 't', 'h', 'o', 'n'] = pythonFenceChars
          from rfl]
        exact hcon
      have h2 : containsSub fenceChars raw = true :=
        contains_of_contains_append fenceChars ['p', 'y', 't', 'h', 'o', 'n']
          raw hcon'
      rw [hf] at h2
      exact absurd h2 (by simp)
    simp [extract_code, hpf, hf]

/-- C9 witness: a concrete completion with prose around a python-fenced
script, and a fence-free completion. -/
theorem C9_code_extraction_amended_witness :
    (∀ c ∈ ("Here is the code:\n".data), c ≠ '`') ∧
    (∀ c ∈ ("\ndf.plot()\n".data), c ≠ '`') ∧
    (∀ c ∈ ("\nDone.".data), c ≠ '`') ∧
    extract_code ("Here is the code:\n".data ++ pythonFenceChars
        ++ "\ndf.plot()\n".data ++ fenceChars ++ "\nDone.".data)
      = pyStrip ("\ndf.plot()\n".data) ∧
    containsSub fenceChars ("no fence here".data) = false ∧
    extract_code ("no fence here".data) = "no fence here".data :=
  ⟨by decide, by decide, by decide,
    (C9_code_extraction_amended).1 ("Here is the code:\n".data)
      ("\ndf.plot()\n".data) ("\nDone.".data) (by decide) (by decide) (by decide),
    by decide,
    (C9_code_extraction_amended).2.2 ("no fence here".data) (by decide)⟩
